import Mathlib

/-!
Verification development for the `webscrapper` repository.

The repository has two source files:
* `scraper.py` — a recursive, thread-pooled crawler (`scrape_website`) with a
  per-document extractor (`extract_content_from_tags`).
* `app.py` — a Flask front end whose own `scrape_website` fetches a single
  page through the WebScrapingAPI proxy, plus a byte-bounded file splitter
  (`split_file_by_size`) and the `/scrape` endpoint pipeline.

Python strings are modelled as Lean `String`s (lists of unicode scalars);
byte sizes of UTF-8 encodings are computed explicitly.  Library calls
(`urlparse`, `urljoin`, BeautifulSoup) are modelled shallowly: a fetched page
is given directly as its list of element texts and its list of already-joined
absolute link targets, and `urlparse` is modelled for the `scheme://host/...`
shapes the code manipulates.  The thread pool of `scrape_website` is modelled
twice: a sequential (one-interleaving) recursive model, and a small-step
machine over explicit schedules that exhibits the racy interleavings.
-/

/-! ## String helpers (models of Python string primitives) -/

/-- `charsLed pat s` holds when `pat` is an initial run of `s`
(model of Python string slicing used by substring search). -/
def charsLed : List Char → List Char → Bool
  | [], _ => true
  | _ :: _, [] => false
  | p :: ps, c :: cs => p == c && charsLed ps cs

/-- `charsHave s pat` : `pat` occurs contiguously somewhere in `s`. -/
def charsHave : List Char → List Char → Bool
  | [], pat => pat.isEmpty
  | c :: cs, pat => charsLed pat (c :: cs) || charsHave cs pat

/-- Model of Python's `sub in s` substring test. -/
def strContains (s pat : String) : Bool := charsHave s.data pat.data

/-- Model of Python's `str.lower()` (ASCII letters, as the code only
compares ASCII boilerplate terms). -/
def lowerStr (s : String) : String := String.mk (s.data.map Char.toLower)

/-- Whitespace-run splitter: model of Python's `str.split()` with no
separator (the accumulator holds the current word reversed). -/
def wordsAux : List Char → List Char → List (List Char)
  | [], cur => if cur.isEmpty then [] else [cur.reverse]
  | c :: cs, cur =>
    if c.isWhitespace then
      if cur.isEmpty then wordsAux cs [] else cur.reverse :: wordsAux cs []
    else wordsAux cs (c :: cur)

/-- Join words with single spaces: model of `' '.join(words)`. -/
def joinSp : List (List Char) → List Char
  | [] => []
  | [w] => w
  | w :: ws => w ++ ' ' :: joinSp ws

/-- Model of `clean_text` in `scraper.py`:
`' '.join(text.strip().split())` — collapse whitespace runs, trim ends. -/
def cleanText (s : String) : String := String.mk (joinSp (wordsAux s.data []))

/-- Byte length of the UTF-8 encoding of one character
(model of the per-character contribution to `len(line.encode("utf-8"))`). -/
def charBytes (c : Char) : Nat :=
  if c.toNat < 128 then 1
  else if c.toNat < 2048 then 2
  else if c.toNat < 65536 then 3
  else 4

/-- Model of Python's `len(s.encode("utf-8"))`. -/
def strBytes (s : String) : Nat := (s.data.map charBytes).sum

/-! ## Chunker: `split_file_by_size` (`app.py`, lines 276-304)

The file is read line by line; lines are accumulated into the current part,
and when the next line would push the accumulated UTF-8 size over
`max_bytes`, the current part is flushed (even if it holds no lines) before
the line is appended.  A part file's byte content is exactly the
concatenation of its lines, so a part is modelled as its `List String` of
lines and the emitted part files as the list of those lists, in part-number
order (part `k` is entry `k-1`). -/

/-- `MAX_FILE_SIZE` in `app.py` (line 14). -/
def MAX_FILE_SIZE : Nat := 900000

/-- UTF-8 byte size of one emitted part file (`writelines(current_lines)`). -/
def chunkBytes (c : List String) : Nat := (c.map strBytes).sum

/-- Loop body of `split_file_by_size`: remaining lines, `current_lines`,
`current_size`.  The source maintains `current_size` as the byte sum of
`current_lines`. -/
def splitGo (maxBytes : Nat) : List String → List String → Nat → List (List String)
  | [], cur, _ => if cur.isEmpty then [] else [cur]
  | l :: ls, cur, size =>
    if maxBytes < size + strBytes l
    then cur :: splitGo maxBytes ls [l] (strBytes l)
    else splitGo maxBytes ls (cur ++ [l]) (size + strBytes l)

/-- `split_file_by_size` (`app.py`): split a sequence of lines into
size-bounded parts. -/
def splitFileBySize (lines : List String) (maxBytes : Nat) : List (List String) :=
  splitGo maxBytes lines [] 0


/-! ## Extractor: `extract_content_from_tags` (`scraper.py`, lines 20-36)

A parsed document is modelled as the list of `element.get_text()` results of
the `TARGET_TAGS` elements in document order (the soup walk itself is a
library call).  `seen` is the set of lowercased admitted texts, modelled as
a list used only through membership. -/

/-- The denylist of boilerplate terms (`scraper.py`, line 31). -/
def denyList : List String :=
  ["cookies", "login", "terms", "privacy", "accept", "menu",
   "subscribe", "contact", "book", "footer"]

/-- Loop of `extract_content_from_tags`: for each element text, admit its
cleaned form when it is nonempty, strictly between the length bounds, not
already seen (case-folded), and free of denylist terms. -/
def extractGo : List String → List String → List String
  | [], _ => []
  | t :: ts, seen =>
    let text := cleanText t
    if text ≠ "" ∧ 30 < text.length ∧ text.length < 1000
        ∧ lowerStr text ∉ seen
        ∧ ∀ bad ∈ denyList, strContains (lowerStr text) bad = false
    then text :: extractGo ts (lowerStr text :: seen)
    else extractGo ts seen

/-- `extract_content_from_tags` (`scraper.py`). -/
def extractContentFromTags (texts : List String) : List String := extractGo texts []

/-- The admission rule exactly as claim C5 words it (a second definition,
following the claim's words, to be compared with `extractGo`): admit iff
length strictly greater than 30 and strictly less than 1000, case-folded
form not already admitted earlier in the document, and no denylist term
contained case-insensitively; results in document order. -/
def extractSpec : List String → List String → List String
  | [], _ => []
  | t :: ts, admitted =>
    let text := cleanText t
    if 30 < text.length ∧ text.length < 1000
        ∧ lowerStr text ∉ admitted
        ∧ ∀ bad ∈ denyList, strContains (lowerStr text) bad = false
    then text :: extractSpec ts (lowerStr text :: admitted)
    else extractSpec ts admitted

/-! ## URL model (`urlparse` / `base_url` as used by `scraper.py`)

`urlparse` is modelled for the shapes the crawler manipulates:
the scheme is the part before the first `://`, the network location the part
after it up to the next `/`, `?` or `#`.  A URL with no `://` has empty
scheme and netloc, exactly the cases `scrape_website` rejects. -/

/-- Characters of `s` strictly before the first occurrence of `pat`
(`none` when `pat` does not occur). -/
def charsBefore : List Char → List Char → Option (List Char)
  | s, pat =>
    if charsLed pat s then some []
    else match s with
      | [] => none
      | c :: t => (charsBefore t pat).map (c :: ·)

/-- Characters of `s` strictly after the first occurrence of `pat`. -/
def charsAfter : List Char → List Char → Option (List Char)
  | s, pat =>
    if charsLed pat s then some (s.drop pat.length)
    else match s with
      | [] => none
      | _ :: t => charsAfter t pat

/-- Model of `urlparse(u).scheme`. -/
def urlScheme (u : String) : String :=
  match charsBefore u.data "://".data with
  | some s => String.mk s
  | none => ""

/-- Model of `urlparse(u).netloc`. -/
def urlNetloc (u : String) : String :=
  match charsAfter u.data "://".data with
  | some rest => String.mk (rest.takeWhile fun c => c ≠ '/' && c ≠ '?' && c ≠ '#')
  | none => ""

/-- The validation of `scrape_website` (`scraper.py`, lines 42-45):
a URL passes iff it has both a scheme and a netloc. -/
def validUrl (u : String) : Bool := urlScheme u != "" && urlNetloc u != ""

/-- `base_url = "{0.scheme}://{0.netloc}"` (`scraper.py`, line 66). -/
def baseUrl (u : String) : String := urlScheme u ++ "://" ++ urlNetloc u


/-! ## Traversal: `scrape_website` (`scraper.py`, lines 38-87)

A page, as fetched and soup-parsed, is modelled as the element texts of the
cleaned document plus the absolute link targets
(`urljoin(base_url, a["href"])` results) in document order.  `web u = none`
means the GET for `u` raises a `requests` exception (or a non-2xx status via
`raise_for_status`).

Sequential model: child futures are executed in submission order, one after
the other, which is one admissible interleaving of the thread pool.  Outputs
are instrumented with the list of URLs for which a GET was issued
(`fetched`) and, for each submitted child future, the triple of parent URL,
submitted link, and the visited set at submission time (`spawned`).
`tmo u = true` models the 30-second `as_completed` wait expiring at the join
point of the call on `u`; the resulting `concurrent.futures.TimeoutError`
is **not** caught by the `except requests.exceptions.RequestException`
handler, so the call raises — modelled as `Except.error ()`.  A parent
collects a raising child through `future.result()` inside
`except Exception`, logging a warning and adding nothing.

Recursion is driven by a fuel parameter (the Python recursion terminates
because `depth` strictly increases toward `max_depth`; any
`fuel > max_depth - depth` makes the two agree, and the safety theorems
below hold for every fuel). -/

/-- One fetched page: element texts and absolute outbound links. -/
structure Page where
  texts : List String
  hrefs : List String

/-- The reachable web: `none` = the GET fails. -/
def Web : Type := String → Option Page

/-- Instrumented result of one `scrape_website` call. -/
structure CrawlOut where
  result : Except Unit (List String)
  visited : List String
  fetched : List String
  spawned : List (String × String × List String)

/-- Accumulator while the submitted child futures are collected. -/
structure ChildAcc where
  texts : List String
  visited : List String
  fetched : List String
  spawned : List (String × String × List String)

/-- Collect the child futures in submission order: a child that raised
contributes no text (`except Exception` → warning); visited state threads
through, fetch and spawn events accumulate. -/
def scrapeKids (child : String → List String → CrawlOut) :
    List String → ChildAcc → ChildAcc
  | [], a => a
  | l :: ls, a =>
    let c := child l a.visited
    scrapeKids child ls
      { texts := a.texts ++ (match c.result with | .ok ts => ts | .error _ => [])
        visited := c.visited
        fetched := a.fetched ++ c.fetched
        spawned := a.spawned ++ c.spawned }

/-- Sequential model of `scrape_website(url, depth, max_depth, visited,
max_links, timeout)`.  Mirrors the source order: URL validation, the
visited/depth cut, `visited.add(url)`, the GET, extraction, the link list
capped to `max_links` *then* filtered by `base_url in link` (a substring
test) and `link not in visited`, recursion at `depth+1` with
`max_links // 2`, and the join with its possible timeout. -/
def scrapeCore (web : Web) (tmo : String → Bool) (maxDepth : Nat) :
    Nat → String → Nat → Nat → List String → CrawlOut
  | 0, _, _, _, vis => ⟨.ok [], vis, [], []⟩
  | fuel + 1, url, depth, maxLinks, vis =>
    if validUrl url = false then ⟨.ok [], vis, [], []⟩
    else if url ∈ vis ∨ maxDepth < depth then ⟨.ok [], vis, [], []⟩
    else
      let vis1 := url :: vis
      match web url with
      | none => ⟨.ok [], vis1, [url], []⟩
      | some page =>
        let texts := extractContentFromTags page.texts
        let base := baseUrl url
        let sub := (page.hrefs.take maxLinks).filter
          fun l => strContains l base && !(vis1.contains l)
        let a := scrapeKids
          (fun l v => scrapeCore web tmo maxDepth fuel l (depth + 1) (maxLinks / 2) v)
          sub ⟨[], vis1, [url], sub.map fun l => (url, l, vis1)⟩
        if tmo url && !sub.isEmpty then ⟨.error (), a.visited, a.fetched, a.spawned⟩
        else ⟨.ok (texts ++ a.texts), a.visited, a.fetched, a.spawned⟩

/-- A whole crawl as started by the caller:
`scrape_website(seed)` with the defaults `depth=0`, `max_depth=2`,
`visited=set()`, `max_links=10`. -/
def scrapeWebsite (web : Web) (tmo : String → Bool) (seed : String) : CrawlOut :=
  scrapeCore web tmo 2 4 seed 0 10 []

/-! ## Interleaving machine for the concurrent traversal

Each pending `scrape_website` call is a task with two visible steps against
the shared `visited` set:
* `check` — lines 42-48: URL validation and the `url in visited or depth >
  max_depth` test (no state change);
* `run` — lines 50-74: `visited.add(url)`, the GET (recorded in `fetched`),
  and the submission of the filtered child links as new tasks.

The GIL serialises the individual set operations, but nothing makes
`check` and `run` of one task atomic together: any other task may be
scheduled between them.  A schedule is the list of task indices picked at
each step; every machine trace corresponds to a real thread interleaving of
the source program. -/

inductive Phase where
  | check
  | run
  | done
deriving DecidableEq

structure MTask where
  url : String
  depth : Nat
  maxLinks : Nat
  phase : Phase

structure MState where
  tasks : List MTask
  visited : List String
  fetched : List String

/-- One machine step: execute the next visible step of task `i`. -/
def stepM (web : Web) (maxDepth : Nat) (s : MState) (i : Nat) : MState :=
  match s.tasks[i]? with
  | none => s
  | some t =>
    match t.phase with
    | .done => s
    | .check =>
      if validUrl t.url && !(s.visited.contains t.url) && decide (t.depth ≤ maxDepth)
      then { s with tasks := s.tasks.set i { t with phase := .run } }
      else { s with tasks := s.tasks.set i { t with phase := .done } }
    | .run =>
      let vis1 := t.url :: s.visited
      let fetched1 := s.fetched ++ [t.url]
      match web t.url with
      | none =>
        { tasks := s.tasks.set i { t with phase := .done }
          visited := vis1, fetched := fetched1 }
      | some page =>
        let base := baseUrl t.url
        let sub := (page.hrefs.take t.maxLinks).filter
          fun l => strContains l base && !(vis1.contains l)
        { tasks := s.tasks.set i { t with phase := .done }
            ++ sub.map fun l => ⟨l, t.depth + 1, t.maxLinks / 2, .check⟩
          visited := vis1, fetched := fetched1 }

/-- Run the machine from a single seed task under a schedule. -/
def runMachine (web : Web) (maxDepth : Nat) (seed : String) (maxLinks : Nat)
    (sched : List Nat) : MState :=
  sched.foldl (stepM web maxDepth) ⟨[⟨seed, 0, maxLinks, .check⟩], [], []⟩

/-! ## `app.py`: the proxy scraper and the `/scrape` endpoint

`app.py` defines its own `scrape_website(url, depth=0, max_depth=1)`
(lines 156-247): one GET to the WebScrapingAPI proxy with the target `url`
as a parameter, falling back to `scrape_website_robust` (lines 21-153, four
parameter sets against the same proxy and target) when the first response
has a non-200 status.  The HTML-to-lines post-processing (soup cleanup,
sentence splitting, filtering, fallbacks) is deterministic text munging
whose internals no claim depends on; it is abstracted as a function
parameter `process`.  Results are instrumented with the list of target
pages requested through the proxy. -/

/-- External responses available to one request: `none` models a
`requests` exception, `some (code, body)` an HTTP response. -/
structure ProxyEnv where
  keyConfigured : Bool
  minimalResp : Option (Nat × String)
  robustResps : List (Option (Nat × String))

/-- The retry loop of `scrape_website_robust`: try the parameter sets in
order until one returns status 200; every attempt targets the same `url`. -/
def robustLoop (process : String → List String) (url : String) :
    List (Option (Nat × String)) → List String × List String
  | [] => ([], [])
  | resp :: rest =>
    match resp with
    | none =>
      ((robustLoop process url rest).1, url :: (robustLoop process url rest).2)
    | some (code, body) =>
      if code = 200 then ((process body).take 1000, [url])
      else ((robustLoop process url rest).1, url :: (robustLoop process url rest).2)

/-- `scrape_website_robust` (`app.py`, lines 21-153).  `depth` and
`max_depth` are accepted "for compatibility" and never read. -/
def appScrapeRobust (process : String → List String) (env : ProxyEnv)
    (url : String) (depth maxDepth : Nat) : List String × List String :=
  if env.keyConfigured = false then ([], [])
  else robustLoop process url env.robustResps

/-- `scrape_website` (`app.py`, lines 156-247): the function the `/scrape`
endpoint calls.  Returns the extracted lines and the list of pages
requested through the proxy. -/
def appScrapeWebsite (process : String → List String) (env : ProxyEnv)
    (url : String) (depth maxDepth : Nat) : List String × List String :=
  if env.keyConfigured = false then ([], [])
  else
    match env.minimalResp with
    | none => ([], [url])
    | some (code, body) =>
      if code = 200 then ((process body).take 1000, [url])
      else
        ((appScrapeRobust process env url depth maxDepth).1,
          url :: (appScrapeRobust process env url depth maxDepth).2)

/-- Outcomes of the `/scrape` endpoint (`app.py`, lines 307-448),
restricted to its non-exceptional paths. -/
inductive ScrapeOutcome where
  | configError
  | missingParams
  | invalidUrl
  | noContent
  | completed (partsUploaded relayCalls : Nat)
deriving DecidableEq

/-- The `/scrape` pipeline: key check, required-field check, URL
validation (400 on failure), the crawl, the 204 "No content scraped"
branch, and otherwise chunking and one upload call per part that is within
`MAX_FILE_SIZE` (oversize parts get a synthetic failure without a network
call).  `save_content_to_txt` appends a newline to each line lacking one;
the split then re-reads exactly those newline-terminated lines. -/
def scrapeEndpointModel (process : String → List String) (env : ProxyEnv)
    (url orgId : Option String) (maxDepth : Nat) : ScrapeOutcome :=
  if env.keyConfigured = false then .configError
  else
    match url, orgId with
    | some u, some o =>
      if u = "" ∨ o = "" then .missingParams
      else if validUrl u = false then .invalidUrl
      else
        let lines := (appScrapeWebsite process env u 0 maxDepth).1
        if lines = [] then .noContent
        else
          let fileLines := lines.map fun l => l ++ "\n"
          let parts := splitFileBySize fileLines MAX_FILE_SIZE
          .completed parts.length
            ((parts.filter fun p => chunkBytes p ≤ MAX_FILE_SIZE).length)
    | _, _ => .missingParams

/-! ## Theorems about the Chunker -/

/-- Flattening the parts emitted by the split loop recovers the pending
lines after the current accumulator. -/
theorem splitGo_flatten (maxBytes : Nat) :
    ∀ ls cur size, (splitGo maxBytes ls cur size).flatten = cur ++ ls := by
  intro ls
  induction ls with
  | nil => intro cur size; cases cur <;> simp [splitGo]
  | cons l ls ih =>
    intro cur size
    by_cases h : maxBytes < size + strBytes l <;> simp [splitGo, h, ih]

/-- C2: for every input sequence of lines and every positive byte ceiling,
concatenating in order the lines of all chunks emitted by
`split_file_by_size` reproduces the input sequence exactly. -/
theorem C2_chunks_concat (lines : List String) (maxBytes : Nat)
    (h : 0 < maxBytes) :
    (splitFileBySize lines maxBytes).flatten = lines := by
  simpa [splitFileBySize] using splitGo_flatten maxBytes lines [] 0

theorem C2_chunks_concat_witness :
    0 < 4 ∧ (splitFileBySize ["ab", "cd", "ef"] 4).flatten = ["ab", "cd", "ef"] :=
  ⟨by decide, C2_chunks_concat ["ab", "cd", "ef"] 4 (by decide)⟩

/-- Every part emitted by the split loop is within the ceiling or is a
single line that itself exceeds the ceiling, provided the accumulator is. -/
theorem splitGo_sizes (maxBytes : Nat) :
    ∀ ls cur size, size = chunkBytes cur →
      (chunkBytes cur ≤ maxBytes ∨ ∃ l, cur = [l] ∧ maxBytes < strBytes l) →
      ∀ c ∈ splitGo maxBytes ls cur size,
        chunkBytes c ≤ maxBytes ∨ ∃ l, c = [l] ∧ maxBytes < strBytes l := by
  intro ls
  induction ls with
  | nil =>
    intro cur size _ hinv c hc
    cases cur with
    | nil => simp [splitGo] at hc
    | cons a as =>
      simp [splitGo] at hc
      simpa [hc] using hinv
  | cons l ls ih =>
    intro cur size hsz hinv c hc
    by_cases h : maxBytes < size + strBytes l
    · simp [splitGo, h] at hc
      rcases hc with hc | hc
      · simpa [hc] using hinv
      · refine ih [l] (strBytes l) (by simp [chunkBytes]) ?_ c hc
        by_cases hl : strBytes l ≤ maxBytes
        · exact Or.inl (by simpa [chunkBytes] using hl)
        · exact Or.inr ⟨l, rfl, by omega⟩
    · simp [splitGo, h] at hc
      refine ih (cur ++ [l]) (size + strBytes l) ?_ ?_ c hc
      · simp [chunkBytes, hsz]
      · exact Or.inl (by simp [chunkBytes] at hsz ⊢; omega)

/-- C3 (amended): with the configured ceiling, every chunk's UTF-8 byte
size is at most the ceiling, except chunks that consist of a single line
that itself exceeds the ceiling — of which there may be several, one per
oversize line. -/
theorem C3_chunk_sizes_amended (lines : List String) :
    ∀ c ∈ splitFileBySize lines MAX_FILE_SIZE,
      chunkBytes c ≤ MAX_FILE_SIZE ∨ ∃ l, c = [l] ∧ MAX_FILE_SIZE < strBytes l := by
  have h := splitGo_sizes MAX_FILE_SIZE lines [] 0 (by simp [chunkBytes])
    (Or.inl (by simp [chunkBytes]))
  simpa [splitFileBySize] using h

theorem C3_chunk_sizes_amended_witness :
    ["ab"] ∈ splitFileBySize ["ab"] MAX_FILE_SIZE ∧
      (chunkBytes ["ab"] ≤ MAX_FILE_SIZE ∨
        ∃ l, ["ab"] = [l] ∧ MAX_FILE_SIZE < strBytes l) :=
  ⟨by decide, C3_chunk_sizes_amended ["ab"] ["ab"] (by decide)⟩

/-- A line of 900001 ASCII characters: its UTF-8 size exceeds the
configured ceiling by one byte. -/
def bigA : String := String.mk (List.replicate 900001 'a')

theorem strBytes_replicate_a (n : Nat) :
    strBytes (String.mk (List.replicate n 'a')) = n := by
  show (List.map charBytes (List.replicate n 'a')).sum = n
  have h1 : charBytes 'a' = 1 := by decide
  rw [List.map_replicate, h1, List.sum_replicate, smul_eq_mul, Nat.mul_one]

/-- C3 (counterexample): on two lines of 900001 bytes each, the splitter
emits two distinct chunks that both exceed the ceiling, so "at most one
oversize chunk" fails. -/
theorem C3_counterexample :
    ¬ ((((splitFileBySize [bigA, bigA] MAX_FILE_SIZE).countP
          fun c => decide (MAX_FILE_SIZE < chunkBytes c)) ≤ 1) ∧
        ∀ c ∈ splitFileBySize [bigA, bigA] MAX_FILE_SIZE,
          MAX_FILE_SIZE < chunkBytes c →
            ∃ l, c = [l] ∧ MAX_FILE_SIZE < strBytes l) := by
  intro h
  have hb : strBytes bigA = 900001 := strBytes_replicate_a 900001
  have hsplit : splitFileBySize [bigA, bigA] MAX_FILE_SIZE
      = [[], [bigA], [bigA]] := by
    norm_num [splitFileBySize, splitGo, hb, MAX_FILE_SIZE]
  have h1 := h.1
  rw [hsplit] at h1
  norm_num [List.countP, List.countP.go, chunkBytes, hb, MAX_FILE_SIZE] at h1

/-- C10: the splitter emits an empty chunk iff the first input line by
itself exceeds the byte ceiling; that empty chunk is chunk number 1 and is
immediately followed by the chunk holding just the oversize first line,
and no later chunk is empty. -/
theorem splitGo_ne_nil (maxBytes : Nat) :
    ∀ ls cur size, cur ≠ [] → [] ∉ splitGo maxBytes ls cur size := by
  intro ls
  induction ls with
  | nil =>
    intro cur size hcur
    cases cur with
    | nil => exact absurd rfl hcur
    | cons a as => simp [splitGo]
  | cons l ls ih =>
    intro cur size hcur
    by_cases h : maxBytes < size + strBytes l
    · simp only [splitGo, if_pos h, List.mem_cons, not_or]
      refine ⟨fun he => hcur he.symm, ih [l] (strBytes l) (by simp)⟩
    · simp only [splitGo, if_neg h]
      exact ih (cur ++ [l]) (size + strBytes l) (by simp)

theorem splitGo_head (maxBytes : Nat) (ls cur : List String) (size : Nat)
    (h1 : maxBytes < size) (h2 : cur ≠ []) :
    (splitGo maxBytes ls cur size).head? = some cur := by
  cases ls with
  | nil => simp [splitGo, h2]
  | cons l ls' =>
    have : maxBytes < size + strBytes l := by omega
    simp [splitGo, this]

/-- C10: an empty chunk (a zero-byte part file) is emitted iff the first
input line by itself exceeds the byte ceiling; it is chunk number 1,
immediately followed by the chunk holding exactly the oversize first line,
and no chunk after the first is ever empty. -/
theorem C10_empty_first_chunk (lines : List String) (maxBytes : Nat) :
    ([] ∈ splitFileBySize lines maxBytes ↔
        ∃ l ls, lines = l :: ls ∧ maxBytes < strBytes l) ∧
      (∀ l ls, lines = l :: ls → maxBytes < strBytes l →
        (splitFileBySize lines maxBytes).head? = some [] ∧
          (splitFileBySize lines maxBytes)[1]? = some [l] ∧
          ∀ c ∈ (splitFileBySize lines maxBytes).drop 1, c ≠ []) := by
  constructor
  · cases lines with
    | nil => simp [splitFileBySize, splitGo]
    | cons l ls =>
      by_cases h : maxBytes < strBytes l
      · constructor
        · intro _
          exact ⟨l, ls, rfl, h⟩
        · intro _
          show [] ∈ splitGo maxBytes (l :: ls) [] 0
          simp only [splitGo, Nat.zero_add, if_pos h]
          exact List.mem_cons_self _ _
      · have h0 : ¬ maxBytes < 0 + strBytes l := by omega
        constructor
        · intro hmem
          simp only [splitFileBySize, splitGo, if_neg h0] at hmem
          exact absurd hmem (splitGo_ne_nil maxBytes ls [l] (0 + strBytes l) (by simp))
        · rintro ⟨l', ls', heq, hlt⟩
          cases heq
          omega
  · rintro l ls rfl hbig
    have hrest : [] ∉ splitGo maxBytes ls [l] (strBytes l) :=
      splitGo_ne_nil maxBytes ls [l] (strBytes l) (by simp)
    have hhd : (splitGo maxBytes ls [l] (strBytes l)).head? = some [l] :=
      splitGo_head maxBytes ls [l] (strBytes l) hbig (by simp)
    have hun : splitFileBySize (l :: ls) maxBytes
        = [] :: splitGo maxBytes ls [l] (strBytes l) := by
      simp only [splitFileBySize, splitGo, Nat.zero_add, if_pos hbig]
    refine ⟨?_, ?_, ?_⟩
    · rw [hun]
      rfl
    · have hz : ∀ xs : List (List String), xs[0]? = xs.head? := by
        intro xs; cases xs <;> simp
      rw [hun, List.getElem?_cons_succ, hz, hhd]
    · rw [hun, List.drop_one, List.tail_cons]
      exact fun c hc he => hrest (he ▸ hc)

theorem C10_empty_first_chunk_witness :
    (splitFileBySize ["aaaa"] 3).head? = some [] ∧
      (splitFileBySize ["aaaa"] 3)[1]? = some ["aaaa"] ∧
      ∀ c ∈ (splitFileBySize ["aaaa"] 3).drop 1, c ≠ [] :=
  (C10_empty_first_chunk ["aaaa"] 3).2 "aaaa" [] rfl (by decide)

/-! ## Theorems about the Extractor -/

/-- The extractor loop agrees with the admission rule as claim C5 words
it: the source's extra nonemptiness test is subsumed by the lower length
bound. -/
theorem extractGo_eq_spec : ∀ ts seen, extractGo ts seen = extractSpec ts seen := by
  intro ts
  induction ts with
  | nil => intro seen; rfl
  | cons t ts ih =>
    intro seen
    have hcond : (cleanText t ≠ "" ∧ 30 < (cleanText t).length
          ∧ (cleanText t).length < 1000 ∧ lowerStr (cleanText t) ∉ seen
          ∧ ∀ bad ∈ denyList, strContains (lowerStr (cleanText t)) bad = false)
        ↔ (30 < (cleanText t).length ∧ (cleanText t).length < 1000
          ∧ lowerStr (cleanText t) ∉ seen
          ∧ ∀ bad ∈ denyList, strContains (lowerStr (cleanText t)) bad = false) := by
      constructor
      · rintro ⟨_, h⟩
        exact h
      · intro h
        refine ⟨?_, h⟩
        intro he
        rw [he] at h
        exact absurd h.1 (by decide)
    simp only [extractGo, extractSpec]
    split_ifs with h1 h2 h2
    · rw [ih]
    · exact absurd (hcond.mp h1) h2
    · exact absurd (hcond.mpr h2) h1
    · exact ih seen

/-- C5: the extractor admits an element's normalized text iff its length
is strictly between 30 and 1000, its case-folded form was not already
admitted in the same document, and it contains no denylist term; admitted
fragments come in document order.  (`extractSpec` is that rule stated in
the claim's words.) -/
theorem C5_extractor_admission (texts : List String) :
    extractContentFromTags texts = extractSpec texts [] :=
  extractGo_eq_spec texts []

/-- Case-folded forms of the fragments admitted by the extractor loop are
pairwise distinct and avoid the incoming `seen` set. -/
theorem extractGo_lower_nodup :
    ∀ ts seen, ((extractGo ts seen).map lowerStr).Nodup
      ∧ ∀ x ∈ extractGo ts seen, lowerStr x ∉ seen := by
  intro ts
  induction ts with
  | nil => intro seen; simp [extractGo]
  | cons t ts ih =>
    intro seen
    simp only [extractGo]
    split_ifs with h
    · obtain ⟨hnd, hmem⟩ := ih (lowerStr (cleanText t) :: seen)
      refine ⟨?_, ?_⟩
      · simp only [List.map_cons, List.nodup_cons]
        refine ⟨?_, hnd⟩
        intro hin
        obtain ⟨x, hx, hxeq⟩ := List.mem_map.mp hin
        exact (hmem x hx) (hxeq ▸ List.mem_cons_self _ _)
      · intro x hx
        rcases List.mem_cons.mp hx with rfl | hx'
        · exact h.2.2.2.1
        · exact fun hxs => (hmem x hx') (List.mem_cons_of_mem _ hxs)
    · exact ⟨(ih seen).1, fun x hx => (ih seen).2 x hx⟩

/-- C4 (amended): within one page, the extractor's fragment list contains
no two case-insensitively identical fragments; across pages the merged
AggregateText can repeat them (see the counterexample). -/
theorem C4_page_dedup_amended (texts : List String) :
    ((extractContentFromTags texts).map lowerStr).Nodup :=
  (extractGo_lower_nodup texts []).1

/-- A 36-character fragment passing every admission test. -/
def fragT : String := "abcdefghijklmnopqrstuvwxyz0123456789"

/-- Two same-site pages carrying the identical admissible fragment. -/
def webC4 : Web := fun u =>
  if u = "http://s.x" then some ⟨[fragT], ["http://s.x/a"]⟩
  else if u = "http://s.x/a" then some ⟨[fragT], []⟩
  else none

/-- C4 (counterexample): the crawl of `webC4` merges the same fragment
from two different pages, so the AggregateText of the whole crawl does
contain two case-insensitively identical fragments — the `seen` set of
`extract_content_from_tags` is local to one document. -/
theorem C4_counterexample :
    (scrapeWebsite webC4 (fun _ => false) "http://s.x").result = .ok [fragT, fragT]
      ∧ ¬ (([fragT, fragT].map lowerStr).Nodup) := by
  constructor
  · rfl
  · decide

/-! ## Theorems about the traversal -/

/-- A site whose pages `/a` and `/b` both link the same page `/l`. -/
def webC1 : Web := fun u =>
  if u = "http://s.x" then some ⟨[], ["http://s.x/a", "http://s.x/b"]⟩
  else if u = "http://s.x/a" then some ⟨[], ["http://s.x/l"]⟩
  else if u = "http://s.x/b" then some ⟨[], ["http://s.x/l"]⟩
  else if u = "http://s.x/l" then some ⟨[], []⟩
  else none

/-- A schedule in which both tasks for `/l` (submitted by the concurrent
branches for `/a` and `/b`) pass the `url in visited` check before either
executes `visited.add(url)`. -/
def schedC1 : List Nat := [0, 0, 1, 1, 2, 2, 3, 4, 3, 4]

/-- C1 (refutation at the failing input): under the schedule `schedC1`
the crawl of `webC1` issues the HTTP GET for `http://s.x/l` twice — the
check-and-mark on the shared visited set is not atomic, so the set of
URLs actually fetched does contain a duplicate. -/
theorem C1_duplicate_fetch :
    (runMachine webC1 2 "http://s.x" 10 schedC1).fetched.count "http://s.x/l" = 2
      ∧ ¬ (runMachine webC1 2 "http://s.x" 10 schedC1).fetched.Nodup := by
  exact ⟨by decide, by decide⟩

/-- Preservation of a property of spawn events through the collection of
one level's child futures. -/
theorem scrapeKids_spawned_pres (child : String → List String → CrawlOut)
    (Q : String × String × List String → Prop)
    (hchild : ∀ l v e, e ∈ (child l v).spawned → Q e) :
    ∀ ls a, (∀ e ∈ a.spawned, Q e) →
      ∀ e ∈ (scrapeKids child ls a).spawned, Q e := by
  intro ls
  induction ls with
  | nil => intro a ha e he; exact ha e he
  | cons l ls ih =>
    intro a ha e he
    simp only [scrapeKids] at he
    refine ih _ ?_ e he
    intro e' he'
    rcases List.mem_append.mp he' with h | h
    · exact ha e' h
    · exact hchild l a.visited e' h

/-- The spawn-event triples recorded at submission satisfy the link
filter: the link contains the parent's `base_url` as a substring and is
not in the visited set read at submission time. -/
theorem init_spawned_ok (url : String) (vis1 cands : List String) :
    ∀ e ∈ List.map (fun l => (url, l, vis1))
        (cands.filter fun l => strContains l (baseUrl url) && !(vis1.contains l)),
      strContains e.2.1 (baseUrl e.1) = true ∧ e.2.1 ∉ e.2.2 := by
  intro e he
  obtain ⟨l, hl, rfl⟩ := List.mem_map.mp he
  obtain ⟨-, hpred⟩ := List.mem_filter.mp hl
  rw [Bool.and_eq_true] at hpred
  exact ⟨hpred.1, by simpa using hpred.2⟩

/-- Every link the sequential traversal ever submits a child future for
contains the parent's `base_url` as a substring and is absent from the
visited set at submission time. -/
theorem scrapeCore_spawned (web : Web) (tmo : String → Bool) (maxDepth : Nat) :
    ∀ fuel url depth maxLinks vis,
      ∀ e ∈ (scrapeCore web tmo maxDepth fuel url depth maxLinks vis).spawned,
        strContains e.2.1 (baseUrl e.1) = true ∧ e.2.1 ∉ e.2.2 := by
  intro fuel
  induction fuel with
  | zero => intro url depth maxLinks vis e he; simp [scrapeCore] at he
  | succ fuel ih =>
    intro url depth maxLinks vis e he
    simp only [scrapeCore] at he
    split at he
    · simp at he
    · split at he
      · simp at he
      · split at he
        · simp at he
        · rename_i page heq
          split at he <;>
          · simp only at he
            exact scrapeKids_spawned_pres _ _
              (fun l v e' he' => ih l (depth + 1) (maxLinks / 2) v e' he')
              _ _ (init_spawned_ok url (url :: vis) (page.hrefs.take maxLinks)) e he


/-- C6 (amended): every link the traversal recurses on — after the
candidate list is capped to max-links-per-page — contains the parent
page's `scheme://host` string as a substring (the source's
`base_url in link` test, which is weaker than sharing the authority) and
was not in the visited set at submission time. -/
theorem C6_links_amended (web : Web) (tmo : String → Bool) (seed : String) :
    ∀ e ∈ (scrapeWebsite web tmo seed).spawned,
      strContains e.2.1 (baseUrl e.1) = true ∧ e.2.1 ∉ e.2.2 :=
  scrapeCore_spawned web tmo 2 4 seed 0 10 []

theorem C6_links_amended_witness :
    ("http://s.x", "http://s.x/a", ["http://s.x"])
        ∈ (scrapeWebsite webC4 (fun _ => false) "http://s.x").spawned ∧
      (strContains "http://s.x/a" (baseUrl "http://s.x") = true ∧
        "http://s.x/a" ∉ ["http://s.x"]) :=
  ⟨by decide, C6_links_amended webC4 (fun _ => false) "http://s.x"
    ("http://s.x", "http://s.x/a", ["http://s.x"]) (by decide)⟩

/-- A page whose only link is cross-domain but contains the page's
`base_url` as a substring, so it survives the `base_url in link` filter. -/
def webC6 : Web := fun u =>
  if u = "http://s.x" then some ⟨[], ["http://evil.com/http://s.x"]⟩
  else none

/-- C6 (counterexample): the crawl of `webC6` recurses on — and issues a
GET for — a link whose authority (`evil.com`) differs from the parent's
(`s.x`); `base_url in link` is a substring test, not an authority
comparison, so cross-domain links can be recursed on. -/
theorem C6_counterexample :
    ¬ (∀ e ∈ (scrapeWebsite webC6 (fun _ => false) "http://s.x").spawned,
        baseUrl e.2.1 = baseUrl e.1) ∧
      "http://evil.com/http://s.x"
        ∈ (scrapeWebsite webC6 (fun _ => false) "http://s.x").fetched := by
  exact ⟨by decide, by decide⟩

/-- The site and timeout oracle for C7: the 30-second `as_completed` wait
expires at the seed's own join point while one child future is pending. -/
def webC7 : Web := fun u =>
  if u = "http://s.x" then some ⟨[], ["http://s.x/a"]⟩
  else if u = "http://s.x/a" then some ⟨[fragT], []⟩
  else none

/-- A second admissible fragment, distinct from `fragT`. -/
def fragU : String := "zyxwvutsrqponmlkjihgfedcba9876543210"

/-- For the nested case: the wait expires at the join point of `/a`,
one level below the seed. -/
def webC7b : Web := fun u =>
  if u = "http://s.x" then some ⟨[fragT], ["http://s.x/a"]⟩
  else if u = "http://s.x/a" then some ⟨[fragU], ["http://s.x/l"]⟩
  else if u = "http://s.x/l" then some ⟨[], []⟩
  else none

/-- C7 (refutation at the failing input): when the join wait expires at
the top level, `concurrent.futures.TimeoutError` propagates out of
`scrape_website` — the outer handler only catches
`requests.exceptions.RequestException` — so the crawl raises instead of
completing normally (first conjunct).  At a nested level the parent's
`except Exception` does log-and-continue, but the timed-out level's
already-collected text (`fragU`) is discarded along with its outstanding
branches, while the abandoned branch's GET still happened (remaining
conjuncts). -/
theorem C7_timeout_raises :
    (scrapeWebsite webC7 (fun u => u == "http://s.x") "http://s.x").result
        = .error ()
      ∧ (scrapeWebsite webC7b (fun u => u == "http://s.x/a") "http://s.x").result
        = .ok [fragT]
      ∧ "http://s.x/l"
        ∈ (scrapeWebsite webC7b (fun u => u == "http://s.x/a") "http://s.x").fetched := by
  exact ⟨rfl, rfl, by decide⟩

/-! ## Theorems about the `/scrape` pipeline (`app.py`) -/

/-- Every request the robust retry loop issues targets the same page. -/
theorem robustLoop_trace (process : String → List String) (url : String) :
    ∀ resps, ∀ t ∈ (robustLoop process url resps).2, t = url := by
  intro resps
  induction resps with
  | nil => simp [robustLoop]
  | cons r rest ih =>
    cases r with
    | none =>
      intro t ht
      simp only [robustLoop, List.mem_cons] at ht
      rcases ht with rfl | ht
      · rfl
      · exact ih t ht
    | some p =>
      obtain ⟨code, body⟩ := p
      intro t ht
      by_cases hc : code = 200
      · simp [robustLoop, hc] at ht
        exact ht
      · simp only [robustLoop, if_neg hc, List.mem_cons] at ht
        rcases ht with rfl | ht
        · rfl
        · exact ih t ht

/-- C9: `scrape_website` in `app.py` — the function `/scrape` actually
calls — behaves identically for any two values of its `depth` and
`max_depth` arguments (same result, same issued requests), and every page
it requests through the proxy is the seed `url` itself: it never follows
discovered links, so the requested max depth has no effect. -/
theorem C9_depth_has_no_effect :
    (∀ (process : String → List String) (env : ProxyEnv) (url : String)
        (d₁ md₁ d₂ md₂ : Nat),
      appScrapeWebsite process env url d₁ md₁ = appScrapeWebsite process env url d₂ md₂)
    ∧ (∀ (process : String → List String) (env : ProxyEnv) (url : String)
        (d md : Nat), ∀ t ∈ (appScrapeWebsite process env url d md).2, t = url) := by
  constructor
  · intro process env url d₁ md₁ d₂ md₂
    rfl
  · intro process env url d md t ht
    simp only [appScrapeWebsite] at ht
    split at ht
    · simp at ht
    · split at ht
      · simpa using ht
      · rename_i code body
        split at ht
        · simpa using ht
        · simp only [appScrapeRobust, List.mem_cons] at ht
          rcases ht with rfl | ht
          · rfl
          · split at ht
            · simp at ht
            · exact robustLoop_trace process url env.robustResps t ht

theorem C9_depth_has_no_effect_witness :
    appScrapeWebsite (fun _ => []) ⟨true, some (500, ""), [none]⟩ "http://s.x" 0 1
        = appScrapeWebsite (fun _ => []) ⟨true, some (500, ""), [none]⟩ "http://s.x" 7 9
      ∧ "http://s.x" = "http://s.x" :=
  ⟨C9_depth_has_no_effect.1 (fun _ => []) ⟨true, some (500, ""), [none]⟩
      "http://s.x" 0 1 7 9,
    C9_depth_has_no_effect.2 (fun _ => []) ⟨true, some (500, ""), [none]⟩
      "http://s.x" 0 1 "http://s.x" (by decide)⟩

/-- C8 (counterexample): a seed URL that fails validation makes the
`/scrape` endpoint answer 400 "Invalid URL format" before any crawl —
not the 204 "no content" outcome the claim asserts. -/
theorem C8_counterexample :
    ¬ (scrapeEndpointModel (fun _ => []) ⟨true, none, []⟩ (some "nourl")
        (some "org") 1 = ScrapeOutcome.noContent) := by
  decide

/-- C8 (amended): if the initial fetch fails, the crawl returns empty
rather than raising and the pipeline reports the distinct 204 "no
content" outcome, with zero chunks and zero relay calls; if the seed URL
fails validation, the endpoint answers 400 "Invalid URL format" before
any crawl (again zero chunks and zero relay calls), while the crawl
function itself, handed an invalid URL, returns an empty aggregate
without fetching; an unreachable fresh URL is fetched once and
contributes an empty aggregate without raising. -/
theorem C8_failure_outcomes :
    (∀ (process : String → List String) (env : ProxyEnv) (u o : String) (md : Nat),
        env.keyConfigured = true → u ≠ "" → o ≠ "" → validUrl u = true →
        env.minimalResp = none →
        scrapeEndpointModel process env (some u) (some o) md = .noContent)
    ∧ (∀ (process : String → List String) (env : ProxyEnv) (u o : String) (md : Nat),
        env.keyConfigured = true → u ≠ "" → o ≠ "" → validUrl u = false →
        scrapeEndpointModel process env (some u) (some o) md = .invalidUrl)
    ∧ (∀ (web : Web) (tmo : String → Bool) (maxDepth fuel : Nat) (url : String)
        (depth maxLinks : Nat) (vis : List String), validUrl url = false →
        scrapeCore web tmo maxDepth fuel url depth maxLinks vis = ⟨.ok [], vis, [], []⟩)
    ∧ (∀ (web : Web) (tmo : String → Bool) (maxDepth fuel : Nat) (url : String)
        (depth maxLinks : Nat) (vis : List String), web url = none →
        validUrl url = true → url ∉ vis → depth ≤ maxDepth →
        scrapeCore web tmo maxDepth (fuel + 1) url depth maxLinks vis
          = ⟨.ok [], url :: vis, [url], []⟩) := by
  refine ⟨?_, ?_, ?_, ?_⟩
  · intro process env u o md hkey hu ho hvalid hresp
    simp [scrapeEndpointModel, appScrapeWebsite, hkey, hu, ho, hvalid, hresp]
  · intro process env u o md hkey hu ho hvalid
    simp [scrapeEndpointModel, hkey, hu, ho, hvalid]
  · intro web tmo maxDepth fuel url depth maxLinks vis hvalid
    cases fuel with
    | zero => rfl
    | succ fuel => simp [scrapeCore, hvalid]
  · intro web tmo maxDepth fuel url depth maxLinks vis hweb hvalid hmem hdepth
    have hcut : ¬ (url ∈ vis ∨ maxDepth < depth) := by
      rintro (h | h)
      · exact hmem h
      · omega
    simp [scrapeCore, hvalid, hcut, hweb]

theorem C8_failure_outcomes_witness :
    scrapeEndpointModel (fun _ => []) ⟨true, none, []⟩ (some "http://s.x")
        (some "org") 1 = ScrapeOutcome.noContent :=
  C8_failure_outcomes.1 (fun _ => []) ⟨true, none, []⟩ "http://s.x" "org" 1
    rfl (by decide) (by decide) (by decide) rfl
